import Mathlib

/-!
Shallow embedding of `scripts/org_stats.py`, the organization statistics
reporter: satellite classification of repositories, Counter aggregation of
language bytes and contributor counts, Markdown table builders, the pie-chart
renderer's selection and labelling logic, and the marker-delimited README
splice in `main`.

Python strings are modelled as `String` / `List Char` (code-point sequences),
`collections.Counter` as an insertion-ordered association list
`List (String × Nat)` with unique keys, and fallible paths as `Except`.
Per-repository API fetches are passed in as explicit functions: the script
swallows fetch errors and turns them into empty results, so a fetch function
is total here and an unsuccessful fetch is the empty list.
-/

/-- Python `s.lower()` on a string, character by character (ASCII case
folding, which covers every satellite keyword). -/
def pyLower (s : String) : String := ⟨s.data.map Char.toLower⟩

/-- Does `hay` begin with `pat`?  Helper for Python's substring search. -/
def begWith : List Char → List Char → Bool
  | [], _ => true
  | _ :: _, [] => false
  | p :: ps, h :: hs => p == h && begWith ps hs

/-- Split `hay` at the first occurrence of `pat`, returning the parts before
and after it; `none` when `pat` does not occur.  This is the search that
underlies Python's `pat in hay` and `hay.partition(pat)`. -/
def splitFirst (pat : List Char) : List Char → Option (List Char × List Char)
  | [] => if begWith pat [] then some ([], []) else none
  | c :: t =>
    if begWith pat (c :: t) then some ([], (c :: t).drop pat.length)
    else (splitFirst pat t).map (fun p => (c :: p.1, p.2))

/-- Python `pat in hay` (substring containment). -/
def containsL (hay pat : List Char) : Bool := (splitFirst pat hay).isSome

/-- Python `hay.partition(sep)`, keeping the two parts the script uses
(`before, _, tail = s.partition(sep)`): when `sep` is absent Python returns
`(s, "", "")`, i.e. before is the whole string and tail is empty. -/
def pyPartition (s sep : List Char) : List Char × List Char :=
  match splitFirst sep s with
  | some p => (p.1, p.2)
  | none => (s, [])

/-- One `counter[k] += v` update on a Python `Counter`, modelled as an
insertion-ordered association list with unique keys: add in place when the
key exists, append a fresh entry otherwise. -/
def counterAdd : List (String × Nat) → String → Nat → List (String × Nat)
  | [], k, v => [(k, v)]
  | p :: t, k, v => if p.1 = k then (p.1, p.2 + v) :: t else p :: counterAdd t k v

/-- The value a Python `Counter` stores under key `k` (0 when absent). -/
def countOf : List (String × Nat) → String → Nat
  | [], _ => 0
  | p :: t, k => (if p.1 = k then p.2 else 0) + countOf t k

/-- Sum of all values of a counter, i.e. `sum(counter.values())`. -/
def valsSum (c : List (String × Nat)) : Nat := (c.map Prod.snd).sum

/-- Keys of a counter, in insertion order. -/
def keysOf (c : List (String × Nat)) : List String := c.map Prod.fst

/-- Python `Counter.most_common(n)`: entries sorted by value descending —
stable, so ties keep the order keys were first inserted — truncated to `n`. -/
def most_common (c : List (String × Nat)) (n : Nat) : List (String × Nat) :=
  (List.insertionSort (fun p q : String × Nat => q.2 ≤ p.2) c).take n

/-- The repository fields `org_stats.py` reads from the GitHub API. -/
structure Repo where
  name : String
  html_url : String
  pushed_at : Option String
  stargazers_count : Nat
  language : Option String
deriving DecidableEq

/-- One element of a per-repository contributor list; `login` may be missing
(`c.get("login")` gives `None`) or empty, `contributions` defaults to 0. -/
structure Contributor where
  login : Option String
  contributions : Nat
deriving DecidableEq

/-- `BLOCK_START` marker literal (line 32 of the script). -/
def BLOCK_START : List Char := "<!-- ORG-STATS:START -->".data

/-- `BLOCK_END` marker literal (line 33 of the script). -/
def BLOCK_END : List Char := "<!-- ORG-STATS:END -->".data

/-- `SATELLITE_GROUPS` dict (lines 36-42), as the insertion-ordered list of
(satellite, keywords) pairs that Python iterates over. -/
def SATELLITE_GROUPS : List (String × List String) :=
  [("YOMOGI", ["yomogi", "YOMOGI", "ymg", "YMG"]),
   ("KASHIWA", ["kashiwa", "KASHIWA", "ksh", "KSH"]),
   ("SAKURA", ["sakura", "SAKURA", "skr", "SKR"]),
   ("BOTAN", ["botan", "BOTAN", "btn", "BTN"]),
   ("MOMIJI", ["momiji", "MOMIJI", "mmj", "MMJ"])]

/-- The catch-all bucket name (line 43). -/
def OTHER_GROUP : String := "OTHERS"

/-- `aggregate_languages` (lines 95-101): for each repository, fetch its
per-language byte counts and add them into one running Counter.
`fetchLangs` stands for `fetch_repo_languages` with the owner applied; a
failed fetch is the empty dict. -/
def aggregate_languages (fetchLangs : String → List (String × Nat))
    (repos : List Repo) : List (String × Nat) :=
  repos.foldl (fun counter r =>
    (fetchLangs r.name).foldl (fun c p => counterAdd c p.1 p.2) counter) []

/-- The satellite bucket the loop body of `group_repos_by_satellite`
(lines 188-198) selects for one repository name: the first satellite in
declared order one of whose keywords, lower-cased, is a substring of the
lower-cased name; the catch-all `OTHERS` when none matches. -/
def satelliteOf (name : String) : String :=
  match SATELLITE_GROUPS.find? (fun p =>
      p.2.any (fun kw => containsL (pyLower name).data (pyLower kw).data)) with
  | some p => p.1
  | none => OTHER_GROUP

/-- `grouped[key].append(r)` on the bucket association list. -/
def appendTo : List (String × List Repo) → String → Repo → List (String × List Repo)
  | [], _, _ => []
  | p :: t, k, r => if p.1 = k then (p.1, p.2 ++ [r]) :: t else p :: appendTo t k r

/-- `group_repos_by_satellite` (lines 184-199): buckets initialised for the
five satellites plus `OTHERS` in that order, then every repository appended
to the bucket chosen by `satelliteOf`. -/
def group_repos_by_satellite (repos : List Repo) : List (String × List Repo) :=
  repos.foldl (fun g r => appendTo g (satelliteOf r.name) r)
    (SATELLITE_GROUPS.map (fun p => (p.1, ([] : List Repo))) ++ [(OTHER_GROUP, [])])

/-- The bucket labels in the order `grouped` holds them. -/
def satLabels : List String := SATELLITE_GROUPS.map Prod.fst ++ [OTHER_GROUP]

/-- Guard `if login:` (line 178): the login is present and non-empty. -/
def loginOk (c : Contributor) : Bool :=
  match c.login with
  | some l => !(l == "")
  | none => false

/-- Loop body over one contributor entry (lines 176-179): add the entry's
contribution count under its login unless the login is missing or empty. -/
def contribStep (total : List (String × Nat)) (c : Contributor) :
    List (String × Nat) :=
  match c.login with
  | some l => if l = "" then total else counterAdd total l c.contributions
  | none => total

/-- The contributor Counter built by `aggregate_contributors` (lines 171-179)
before ranking; `fetch` stands for `fetch_repo_contributors` with the owner
applied (failures are empty lists). -/
def contributorCounter (fetch : String → List Contributor) (repos : List Repo) :
    List (String × Nat) :=
  repos.foldl (fun total r => (fetch r.name).foldl contribStep total) []

/-- `aggregate_contributors` (lines 171-180): returns
`total.most_common(top_n)`; `main` calls it with `top_n=10`. -/
def aggregate_contributors (fetch : String → List Contributor)
    (repos : List Repo) (top_n : Nat) : List (String × Nat) :=
  most_common (contributorCounter fetch repos) top_n

/-- Lexicographic order on Python strings (code-point order), as used by
`list.sort(key=...)` on the `pushed_at` strings. -/
def pyStrLeB : List Char → List Char → Bool
  | [], _ => true
  | _ :: _, [] => false
  | a :: xs, b :: ys => if a < b then true else if b < a then false else pyStrLeB xs ys

/-- Sort key of line 273: `r["pushed_at"] or ""`. -/
def sortKey (r : Repo) : List Char := (r.pushed_at.getD "").data

/-- `repos.sort(key=lambda r: r["pushed_at"] or "", reverse=True)` (line 273):
a stable descending sort, so empty keys (null timestamps) go last. -/
def sortReposByPushed (repos : List Repo) : List Repo :=
  List.insertionSort (fun a b => pyStrLeB (sortKey b) (sortKey a) = true) repos

/-- `make_recent_repos_table` (lines 203-213): header lines, then one row per
repository among the first `limit`, with the date part `[:10]` of the push
timestamp (`-` when null) and `-` for a null primary language. -/
def make_recent_repos_table (repos : List Repo) (limit : Nat) : String :=
  String.join
    (["### 📦 最近動いたリポジトリ\n",
      "| Repo | Pushed | Stars | Lang |\n",
      "|------|--------|-------|------|\n"]
      ++ (repos.take limit).map (fun r =>
        "| [" ++ r.name ++ "](" ++ r.html_url ++ ") | "
          ++ (r.pushed_at.getD "-").take 10 ++ " | ⭐ "
          ++ toString r.stargazers_count ++ " | " ++ r.language.getD "-" ++ " |\n")
      ++ ["\n"])

/-- `make_contributors_section` (lines 234-245): a placeholder line when the
ranking is empty, otherwise a table with one row per ranked login. -/
def make_contributors_section (top_contribs : List (String × Nat)) : String :=
  String.join
    (["### 🧑‍💻 Top Contributors (all repos)\n"]
      ++ (if top_contribs.isEmpty then ["データがありませんでした。\n\n"]
          else ["| User | Contributions |\n", "|------|----------------|\n"]
            ++ top_contribs.map (fun p => "| @" ++ p.1 ++ " | " ++ toString p.2 ++ " |\n")
            ++ ["\n"]))

/-- Result of `save_language_svg`, abstracting the matplotlib drawing to the
data that determines it: the placeholder text figure, or a pie chart with its
slice labels and label percentages. -/
inductive SvgOut where
  | placeholder (text : String)
  | chart (labels : List String) (percents : List ℚ)
deriving DecidableEq

/-- Slices selected on line 119: `lang_counter.most_common(8)`. -/
def svgSlices (c : List (String × Nat)) : List (String × Nat) := most_common c 8

/-- The `sizes` list of line 121. -/
def svgSliceSizes (c : List (String × Nat)) : List Nat := (svgSlices c).map Prod.snd

/-- The slice label percentages of line 147: `sizes[i] / total * 100.0`,
where `total = sum(sizes)` is the sum over the selected slices only. -/
def svgPercents (c : List (String × Nat)) : List ℚ :=
  (svgSliceSizes c).map (fun s : Nat => (s : ℚ) / ((svgSliceSizes c).sum : ℚ) * 100)

/-- `save_language_svg` (lines 104-167): an empty counter draws the
placeholder text and returns; otherwise the top 8 slices are drawn and every
label divides by `total = sum(sizes)`, which raises `ZeroDivisionError` when
all the selected byte counts are zero. -/
def save_language_svg (lang_counter : List (String × Nat)) : Except String SvgOut :=
  if lang_counter.isEmpty then .ok (.placeholder "No language data")
  else if (svgSliceSizes lang_counter).sum = 0 then
    .error "ZeroDivisionError: sizes[i] / total"
  else .ok (.chart ((svgSlices lang_counter).map Prod.fst) (svgPercents lang_counter))

/-- Outcome of the README splice in `main` (lines 313-330): the process exit
code, the final file content, and whether the file was rewritten. -/
structure SpliceRun where
  exitCode : Nat
  finalContent : List Char
  wrote : Bool
deriving DecidableEq

/-- The `"\n"` inserted after the start marker on line 323. -/
def newlineL : List Char := ['\n']

/-- Lines 316-330 of `main`: exit 1 without touching the file when either
marker is missing; otherwise partition at the first start marker, partition
the remainder at the first end marker, rebuild the file, and write it only
when the new content differs from the old. -/
def runSplice (readme newBlock : List Char) : SpliceRun :=
  if !containsL readme BLOCK_START || !containsL readme BLOCK_END then
    { exitCode := 1, finalContent := readme, wrote := false }
  else
    let p1 := pyPartition readme BLOCK_START
    let p2 := pyPartition p1.2 BLOCK_END
    let newReadme := p1.1 ++ BLOCK_START ++ newlineL ++ newBlock ++ BLOCK_END ++ p2.2
    if newReadme ≠ readme then { exitCode := 0, finalContent := newReadme, wrote := true }
    else { exitCode := 0, finalContent := readme, wrote := false }

/-! ### Concrete instances used by witnesses and counterexamples -/

/-- A concrete per-repository language fetch result. -/
def demoLangFetch : String → List (String × Nat) :=
  fun n => if n = "alpha" then [("Python", 3), ("C", 2)] else [("C", 5)]

/-- Repository pushed on 2024-01-01 with a primary language. -/
def demoRepoA : Repo :=
  { name := "alpha", html_url := "https://example.invalid/alpha",
    pushed_at := some "2024-01-01T00:00:00Z", stargazers_count := 1,
    language := some "Python" }

/-- Repository with a null push timestamp and a null primary language. -/
def demoRepoB : Repo :=
  { name := "beta", html_url := "https://example.invalid/beta",
    pushed_at := none, stargazers_count := 2, language := none }

/-- Repository pushed on 2024-03-01. -/
def demoRepoC : Repo :=
  { name := "gamma", html_url := "https://example.invalid/gamma",
    pushed_at := some "2024-03-01T12:00:00Z", stargazers_count := 5,
    language := some "C" }

/-- A contributor fetch returning eleven distinct logins, one contribution
each, for any repository. -/
def demoContribFetch11 : String → List Contributor :=
  fun _ =>
    ["c01", "c02", "c03", "c04", "c05", "c06", "c07", "c08", "c09", "c10",
     "c11"].map (fun l => { login := some l, contributions := 1 })

/-- A contributor fetch with a tie: `alice` is encountered before `bob` and
both end with five contributions. -/
def demoContribFetchTie : String → List Contributor :=
  fun _ =>
    [{ login := some "alice", contributions := 3 },
     { login := some "bob", contributions := 5 },
     { login := some "alice", contributions := 2 },
     { login := none, contributions := 9 },
     { login := some "", contributions := 4 }]

/-- A README whose end marker occurs only before its start marker. -/
def demoBadOrderFile : List Char := BLOCK_END ++ BLOCK_START ++ "tail".data

/-- A well-formed README: prefix, start marker, old block, end marker, suffix. -/
def demoGoodFile : List Char :=
  "# Heading\n".data ++ BLOCK_START ++ "old body".data ++ BLOCK_END ++ "\nfooter\n".data

/-- A generated block that itself contains the end marker. -/
def demoEndInBlock : List Char := "x".data ++ BLOCK_END ++ "y".data

/-! ### Counter lemmas -/

lemma countOf_counterAdd (c : List (String × Nat)) (k : String) (v : Nat) (k' : String) :
    countOf (counterAdd c k v) k' = countOf c k' + (if k = k' then v else 0) := by
  induction c with
  | nil =>
    simp only [counterAdd, countOf]
    split_ifs <;> omega
  | cons p t ih =>
    by_cases h : p.1 = k
    · subst h
      simp [counterAdd, countOf]
      split_ifs <;> omega
    · simp only [counterAdd, if_neg h, countOf, ih]
      omega

lemma valsSum_counterAdd (c : List (String × Nat)) (k : String) (v : Nat) :
    valsSum (counterAdd c k v) = valsSum c + v := by
  induction c with
  | nil => simp [counterAdd, valsSum]
  | cons p t ih =>
    by_cases h : p.1 = k
    · simp only [counterAdd, if_pos h, valsSum, List.map_cons, List.sum_cons]
      omega
    · simp only [counterAdd, if_neg h, valsSum, List.map_cons, List.sum_cons] at ih ⊢
      omega

lemma countOf_langFold (langs : List (String × Nat)) (c : List (String × Nat)) (k : String) :
    countOf (langs.foldl (fun c p => counterAdd c p.1 p.2) c) k
      = countOf c k + countOf langs k := by
  induction langs generalizing c with
  | nil => simp [countOf]
  | cons p t ih =>
    rw [List.foldl_cons, ih, countOf_counterAdd]
    simp only [countOf]
    omega

lemma valsSum_langFold (langs : List (String × Nat)) (c : List (String × Nat)) :
    valsSum (langs.foldl (fun c p => counterAdd c p.1 p.2) c)
      = valsSum c + valsSum langs := by
  induction langs generalizing c with
  | nil => simp [valsSum]
  | cons p t ih =>
    rw [List.foldl_cons, ih, valsSum_counterAdd]
    simp only [valsSum, List.map_cons, List.sum_cons]
    omega

lemma countOf_aggFold (f : String → List (String × Nat)) (l : List Repo)
    (c : List (String × Nat)) (k : String) :
    countOf (l.foldl (fun counter r =>
        (f r.name).foldl (fun c p => counterAdd c p.1 p.2) counter) c) k
      = countOf c k + (l.map (fun r => countOf (f r.name) k)).sum := by
  induction l generalizing c with
  | nil => simp
  | cons r t ih =>
    rw [List.foldl_cons, ih, countOf_langFold]
    simp only [List.map_cons, List.sum_cons]
    omega

lemma valsSum_aggFold (f : String → List (String × Nat)) (l : List Repo)
    (c : List (String × Nat)) :
    valsSum (l.foldl (fun counter r =>
        (f r.name).foldl (fun c p => counterAdd c p.1 p.2) counter) c)
      = valsSum c + (l.map (fun r => valsSum (f r.name))).sum := by
  induction l generalizing c with
  | nil => simp
  | cons r t ih =>
    rw [List.foldl_cons, ih, valsSum_langFold]
    simp only [List.map_cons, List.sum_cons]
    omega

/-- C2: the language tally is the pointwise (per-language) sum of the
per-repository fetch results, it is invariant under permuting the repository
list, and the sum of all tally values is the sum of the per-repository byte
totals. -/
theorem c2_language_aggregation (f : String → List (String × Nat))
    (l l' : List Repo) (lang : String) (hp : List.Perm l l') :
    countOf (aggregate_languages f l) lang
        = (l.map (fun r => countOf (f r.name) lang)).sum
  ∧ countOf (aggregate_languages f l) lang = countOf (aggregate_languages f l') lang
  ∧ valsSum (aggregate_languages f l) = (l.map (fun r => valsSum (f r.name))).sum := by
  refine ⟨?_, ?_, ?_⟩
  · simpa [aggregate_languages, countOf] using countOf_aggFold f l [] lang
  · have h1 := countOf_aggFold f l [] lang
    have h2 := countOf_aggFold f l' [] lang
    simp only [countOf, Nat.zero_add] at h1 h2
    simp only [aggregate_languages]
    rw [h1, h2]
    exact (hp.map (fun r => countOf (f r.name) lang)).sum_eq
  · simpa [aggregate_languages, valsSum] using valsSum_aggFold f l []

/-- Witness for `c2_language_aggregation`: a concrete fetch function, a
concrete two-repository list and its swap. -/
theorem c2_language_aggregation_witness :
    List.Perm [demoRepoA, demoRepoB] [demoRepoB, demoRepoA]
  ∧ (countOf (aggregate_languages demoLangFetch [demoRepoA, demoRepoB]) "C"
        = ([demoRepoA, demoRepoB].map (fun r => countOf (demoLangFetch r.name) "C")).sum
    ∧ countOf (aggregate_languages demoLangFetch [demoRepoA, demoRepoB]) "C"
        = countOf (aggregate_languages demoLangFetch [demoRepoB, demoRepoA]) "C"
    ∧ valsSum (aggregate_languages demoLangFetch [demoRepoA, demoRepoB])
        = ([demoRepoA, demoRepoB].map (fun r => valsSum (demoLangFetch r.name))).sum) :=
  ⟨by decide,
   c2_language_aggregation demoLangFetch [demoRepoA, demoRepoB] [demoRepoB, demoRepoA]
     "C" (by decide)⟩

/-! ### Contributor guard lemmas (C10) -/

lemma contribStep_not_ok (t : List (String × Nat)) (c : Contributor)
    (h : loginOk c = false) : contribStep t c = t := by
  obtain ⟨login, cnt⟩ := c
  cases login with
  | none => rfl
  | some l =>
    simp only [loginOk, Bool.not_eq_false', beq_iff_eq] at h
    simp [contribStep, h]

lemma foldl_contribStep_filter (cs : List Contributor) (t : List (String × Nat)) :
    (cs.filter loginOk).foldl contribStep t = cs.foldl contribStep t := by
  induction cs generalizing t with
  | nil => rfl
  | cons c cs ih =>
    cases hc : loginOk c with
    | true => simp [List.filter_cons, hc, ih]
    | false => simp [List.filter_cons, hc, ih, contribStep_not_ok t c hc]

lemma keysOf_counterAdd_sub (c : List (String × Nat)) (k : String) (v : Nat) :
    ∀ k' ∈ keysOf (counterAdd c k v), k' ∈ keysOf c ∨ k' = k := by
  induction c with
  | nil => simp [counterAdd, keysOf]
  | cons p t ih =>
    intro k' hk'
    by_cases h : p.1 = k
    · simp only [counterAdd, if_pos h, keysOf, List.map_cons, List.mem_cons] at hk' ⊢
      tauto
    · simp only [counterAdd, if_neg h, keysOf, List.map_cons, List.mem_cons] at hk' ⊢
      rcases hk' with h1 | h1
      · tauto
      · rcases ih k' h1 with h2 | h2 <;> tauto

lemma keysOf_contribStep (t : List (String × Nat)) (c : Contributor)
    (ht : ∀ k ∈ keysOf t, k ≠ "") : ∀ k ∈ keysOf (contribStep t c), k ≠ "" := by
  obtain ⟨login, cnt⟩ := c
  cases login with
  | none => exact ht
  | some l =>
    simp only [contribStep]
    by_cases h : l = ""
    · simp only [if_pos h]
      exact ht
    · simp only [if_neg h]
      intro k hk
      rcases keysOf_counterAdd_sub t l cnt k hk with h1 | h1
      · exact ht k h1
      · subst h1; exact h

lemma keysOf_contribFold (cs : List Contributor) (t : List (String × Nat))
    (ht : ∀ k ∈ keysOf t, k ≠ "") : ∀ k ∈ keysOf (cs.foldl contribStep t), k ≠ "" := by
  induction cs generalizing t with
  | nil => exact ht
  | cons c cs ih => exact ih _ (keysOf_contribStep t c ht)

lemma keysOf_contribOuter (fetch : String → List Contributor) (repos : List Repo)
    (t : List (String × Nat)) (ht : ∀ k ∈ keysOf t, k ≠ "") :
    ∀ k ∈ keysOf (repos.foldl (fun total r => (fetch r.name).foldl contribStep total) t),
      k ≠ "" := by
  induction repos generalizing t with
  | nil => exact ht
  | cons r rs ih => exact ih _ (keysOf_contribFold (fetch r.name) t ht)

lemma contribFold_filter_outer (fetch : String → List Contributor) (repos : List Repo)
    (t : List (String × Nat)) :
    repos.foldl (fun total r => ((fetch r.name).filter loginOk).foldl contribStep total) t
      = repos.foldl (fun total r => (fetch r.name).foldl contribStep total) t := by
  induction repos generalizing t with
  | nil => rfl
  | cons r rs ih => rw [List.foldl_cons, List.foldl_cons, foldl_contribStep_filter, ih]

/-- C10: contributor aggregation ignores every entry whose login is absent or
empty — restricting the fetched lists to the entries passing the `if login:`
guard leaves the tally literally unchanged — and consequently every key of
the contributor tally is a non-empty login string. -/
theorem c10_contributor_login_guard (fetch : String → List Contributor)
    (repos : List Repo) :
    (∀ k ∈ keysOf (contributorCounter fetch repos), k ≠ "")
  ∧ contributorCounter (fun n => (fetch n).filter loginOk) repos
      = contributorCounter fetch repos := by
  constructor
  · exact keysOf_contribOuter fetch repos [] (by simp [keysOf])
  · exact contribFold_filter_outer fetch repos []

/-! ### Satellite classification lemmas (C1) -/

lemma satelliteOf_mem (n : String) : satelliteOf n ∈ satLabels := by
  unfold satelliteOf
  cases h : SATELLITE_GROUPS.find? (fun p =>
      p.2.any (fun kw => containsL (pyLower n).data (pyLower kw).data)) with
  | none => simp [satLabels]
  | some p =>
    have hp : p ∈ SATELLITE_GROUPS := List.mem_of_find?_eq_some h
    exact List.mem_append_left _ (List.mem_map_of_mem Prod.fst hp)

lemma satLabels_nodup : satLabels.Nodup := by decide

lemma satelliteOf_cases (n : String) :
    satelliteOf n = "YOMOGI" ∨ satelliteOf n = "KASHIWA" ∨ satelliteOf n = "SAKURA"
  ∨ satelliteOf n = "BOTAN" ∨ satelliteOf n = "MOMIJI" ∨ satelliteOf n = "OTHERS" := by
  have h := satelliteOf_mem n
  simpa [satLabels, SATELLITE_GROUPS, OTHER_GROUP] using h

lemma appendTo_map (L : List String) (hnd : L.Nodup) (acc : String → List Repo)
    (k : String) (r : Repo) :
    appendTo (L.map (fun s => (s, acc s))) k r
      = L.map (fun s => (s, acc s ++ if s = k then [r] else [])) := by
  induction L with
  | nil => rfl
  | cons a t ih =>
    rcases List.nodup_cons.mp hnd with ⟨hna, hndt⟩
    simp only [List.map_cons, appendTo]
    by_cases h : a = k
    · subst h
      simp only [if_true]
      congr 1
      refine List.map_congr_left ?_
      intro s hs
      have hne : ¬ s = a := fun e => hna (e ▸ hs)
      simp [hne]
    · rw [if_neg h, ih hndt]
      simp [h]

lemma group_foldl_filters (repos : List Repo) (acc : String → List Repo) :
    repos.foldl (fun g r => appendTo g (satelliteOf r.name) r)
        (satLabels.map (fun s => (s, acc s)))
      = satLabels.map (fun s =>
          (s, acc s ++ repos.filter (fun r => satelliteOf r.name == s))) := by
  induction repos generalizing acc with
  | nil => simp
  | cons r rs ih =>
    rw [List.foldl_cons, appendTo_map satLabels satLabels_nodup acc (satelliteOf r.name) r]
    refine (ih _).trans ?_
    refine List.map_congr_left ?_
    intro s hs
    by_cases h : satelliteOf r.name = s
    · subst h
      simp [List.filter_cons, List.append_assoc]
    · have h' : ¬ s = satelliteOf r.name := fun e => h e.symm
      simp [List.filter_cons, h, h']

lemma group_eq_filters (repos : List Repo) :
    group_repos_by_satellite repos
      = satLabels.map (fun s => (s, repos.filter (fun r => satelliteOf r.name == s))) := by
  have h0 : (SATELLITE_GROUPS.map (fun p => (p.1, ([] : List Repo))) ++ [(OTHER_GROUP, [])])
      = satLabels.map (fun s => (s, ([] : List Repo))) := rfl
  unfold group_repos_by_satellite
  rw [h0]
  simpa using group_foldl_filters repos (fun _ => [])

lemma count_filter_sat (a : Repo) (l : List Repo) (s : String) :
    List.count a (l.filter (fun r => satelliteOf r.name == s))
      = if satelliteOf a.name = s then List.count a l else 0 := by
  by_cases h : satelliteOf a.name = s
  · rw [if_pos h]
    exact List.count_filter (by simp [h])
  · rw [if_neg h]
    rw [List.count_eq_zero]
    simp [List.mem_filter, h]

/-- C1: the satellite classifier partitions the repository list — the bucket
labels are exactly the five satellites (declared order) plus the `OTHERS`
catch-all, the concatenation of all buckets is a permutation of the input
(no duplicates, no omissions), every bucket member is an input repository
sitting in the bucket its (first-match, lower-cased, substring) classification
selects, and every input repository is in some bucket. -/
theorem c1_satellite_partition (repos : List Repo) :
    (group_repos_by_satellite repos).map Prod.fst
        = ["YOMOGI", "KASHIWA", "SAKURA", "BOTAN", "MOMIJI", "OTHERS"]
  ∧ List.Perm (((group_repos_by_satellite repos).map Prod.snd).flatten) repos
  ∧ (∀ p ∈ group_repos_by_satellite repos, ∀ r ∈ p.2,
        r ∈ repos ∧ p.1 = satelliteOf r.name)
  ∧ (∀ r ∈ repos, ∃ p ∈ group_repos_by_satellite repos, r ∈ p.2) := by
  refine ⟨?_, ?_, ?_, ?_⟩
  · rw [group_eq_filters]
    rfl
  · rw [group_eq_filters, List.perm_iff_count]
    intro a
    have e : (((satLabels.map (fun s =>
          (s, repos.filter (fun r => satelliteOf r.name == s)))).map Prod.snd).flatten)
        = repos.filter (fun r => satelliteOf r.name == "YOMOGI")
          ++ (repos.filter (fun r => satelliteOf r.name == "KASHIWA")
          ++ (repos.filter (fun r => satelliteOf r.name == "SAKURA")
          ++ (repos.filter (fun r => satelliteOf r.name == "BOTAN")
          ++ (repos.filter (fun r => satelliteOf r.name == "MOMIJI")
          ++ (repos.filter (fun r => satelliteOf r.name == "OTHERS") ++ []))))) := rfl
    rw [e]
    simp only [List.count_append, count_filter_sat, List.count_nil]
    rcases satelliteOf_cases a.name with h | h | h | h | h | h <;> simp [h]
  · intro p hp r hr
    rw [group_eq_filters] at hp
    rcases List.mem_map.mp hp with ⟨s, hs, rfl⟩
    rcases List.mem_filter.mp hr with ⟨hrr, hsat⟩
    exact ⟨hrr, (show satelliteOf r.name = s by simpa using hsat).symm⟩
  · intro r hr
    refine ⟨(satelliteOf r.name,
        repos.filter (fun x => satelliteOf x.name == satelliteOf r.name)), ?_, ?_⟩
    · rw [group_eq_filters]
      exact List.mem_map.mpr ⟨satelliteOf r.name, satelliteOf_mem r.name, rfl⟩
    · exact List.mem_filter.mpr ⟨hr, by simp⟩

/-! ### Substring search lemmas (C3, C4, C5) -/

lemma begWith_append (pat rest : List Char) : begWith pat (pat ++ rest) = true := by
  induction pat with
  | nil => rfl
  | cons c t ih => simp [begWith, ih]

lemma begWith_iff (pat hay : List Char) :
    begWith pat hay = true ↔ ∃ t, hay = pat ++ t := by
  constructor
  · intro h
    induction pat generalizing hay with
    | nil => exact ⟨hay, rfl⟩
    | cons c t ih =>
      cases hay with
      | nil => simp [begWith] at h
      | cons c' hs =>
        simp only [begWith, Bool.and_eq_true, beq_iff_eq] at h
        rcases h with ⟨rfl, h2⟩
        rcases ih hs h2 with ⟨u, rfl⟩
        exact ⟨u, rfl⟩
  · rintro ⟨t, rfl⟩
    exact begWith_append pat t

lemma begWith_le_length (pat hay : List Char) (h : begWith pat hay = true) :
    pat.length ≤ hay.length := by
  rcases (begWith_iff pat hay).mp h with ⟨t, rfl⟩
  simp

lemma begWith_take (pat hay : List Char) :
    begWith pat hay = begWith pat (hay.take pat.length) := by
  induction pat generalizing hay with
  | nil => rfl
  | cons c t ih =>
    cases hay with
    | nil => rfl
    | cons c' hs => simp [begWith, List.take_succ_cons, ih hs]

lemma begWith_append_long (pat A X Y : List Char) (h : pat.length ≤ A.length) :
    begWith pat (A ++ X) = begWith pat (A ++ Y) := by
  rw [begWith_take pat (A ++ X), begWith_take pat (A ++ Y),
    List.take_append_of_le_length h, List.take_append_of_le_length h]

lemma begWith_eq_of_window (pat A X : List Char) (h : pat.length ≤ A.length) :
    begWith pat (A ++ X) = begWith pat A := by
  have h2 := begWith_append_long pat A X [] h
  simpa using h2

lemma containsL_cons (c : Char) (t pat : List Char) :
    containsL (c :: t) pat = (begWith pat (c :: t) || containsL t pat) := by
  simp only [containsL, splitFirst]
  cases h : begWith pat (c :: t) with
  | true => simp [h]
  | false => simp [h, Option.isSome_map]

lemma splitFirst_begWith (pat hay : List Char) (h : begWith pat hay = true) :
    splitFirst pat hay = some ([], hay.drop pat.length) := by
  cases hay with
  | nil => simp [splitFirst, h]
  | cons c t => simp [splitFirst, h]

lemma containsL_append_pat (X pat Y : List Char) :
    containsL (X ++ (pat ++ Y)) pat = true := by
  induction X with
  | nil =>
    simp only [List.nil_append, containsL]
    rw [splitFirst_begWith pat _ (begWith_append pat Y)]
    rfl
  | cons c t ih =>
    rw [List.cons_append, containsL_cons]
    simp [ih]

lemma containsL_short (hay pat : List Char) (h : hay.length < pat.length) :
    containsL hay pat = false := by
  induction hay with
  | nil =>
    simp only [containsL, splitFirst]
    cases hb : begWith pat [] with
    | true =>
      have hlen := begWith_le_length pat [] hb
      simp only [List.length_nil, Nat.le_zero] at hlen
      simp only [List.length_nil] at h
      omega
    | false => simp
  | cons c t ih =>
    rw [containsL_cons]
    have h1 : begWith pat (c :: t) = false := by
      cases hb : begWith pat (c :: t) with
      | true =>
        have hlen := begWith_le_length _ _ hb
        simp at hlen h
        omega
      | false => rfl
    have h2 : containsL t pat = false := by
      refine ih ?_
      simp at h ⊢
      omega
    simp [h1, h2]

lemma splitFirst_of_first (pat pre rest : List Char) (hne : pat ≠ [])
    (hnc : containsL (pre ++ pat.dropLast) pat = false) :
    splitFirst pat (pre ++ (pat ++ rest)) = some (pre, rest) := by
  induction pre with
  | nil =>
    rw [List.nil_append, splitFirst_begWith pat _ (begWith_append pat rest)]
    rw [List.drop_left]
  | cons c pre ih =>
    have hlenpos : 0 < pat.length := List.length_pos.mpr hne
    have b12 : begWith pat (c :: (pre ++ pat.dropLast)) = false
        ∧ containsL (pre ++ pat.dropLast) pat = false := by
      have hx := hnc
      rw [List.cons_append, containsL_cons] at hx
      simp only [Bool.or_eq_false_iff] at hx
      exact hx
    have hL : pat.length ≤ ((c :: pre) ++ pat.dropLast).length := by
      simp [List.length_dropLast]
      omega
    have hsplit : (c :: pre) ++ (pat ++ rest)
        = ((c :: pre) ++ pat.dropLast) ++ ([pat.getLast hne] ++ rest) := by
      conv_lhs => rw [← List.dropLast_append_getLast hne]
      simp [List.append_assoc]
    have hbw : begWith pat (c :: (pre ++ (pat ++ rest))) = false := by
      have hw : begWith pat (((c :: pre) ++ pat.dropLast) ++ ([pat.getLast hne] ++ rest))
          = begWith pat ((c :: pre) ++ pat.dropLast) := begWith_eq_of_window _ _ _ hL
      have hc : begWith pat (c :: (pre ++ (pat ++ rest)))
          = begWith pat (((c :: pre) ++ pat.dropLast) ++ ([pat.getLast hne] ++ rest)) := by
        rw [← hsplit]
        simp
      rw [hc, hw]
      have : begWith pat ((c :: pre) ++ pat.dropLast)
          = begWith pat (c :: (pre ++ pat.dropLast)) := by simp
      rw [this]
      exact b12.1
    have goalr : splitFirst pat (c :: (pre ++ (pat ++ rest))) = some (c :: pre, rest) := by
      simp only [splitFirst, hbw, Bool.false_eq_true, if_false]
      rw [ih b12.2]
      rfl
    simpa using goalr

lemma splitFirst_sound (pat : List Char) (hne : pat ≠ []) :
    ∀ (hay b a : List Char), splitFirst pat hay = some (b, a) →
      hay = b ++ (pat ++ a) ∧ containsL (b ++ pat.dropLast) pat = false := by
  intro hay
  induction hay with
  | nil =>
    intro b a h
    simp only [splitFirst] at h
    cases hb : begWith pat [] with
    | true =>
      have hlen := begWith_le_length pat [] hb
      have : pat = [] := by
        cases pat with
        | nil => rfl
        | cons x xs => simp at hlen
      exact absurd this hne
    | false => rw [hb] at h; simp at h
  | cons c t ih =>
    intro b a h
    simp only [splitFirst] at h
    cases hb : begWith pat (c :: t) with
    | true =>
      rw [hb] at h
      simp only [if_true] at h
      rcases (begWith_iff _ _).mp hb with ⟨u, hu⟩
      injection h with h1
      have hba : b = [] ∧ a = (c :: t).drop pat.length := by
        constructor
        · exact (congrArg Prod.fst h1).symm
        · exact (congrArg Prod.snd h1).symm
      rcases hba with ⟨rfl, rfl⟩
      constructor
      · rw [hu, List.drop_left, List.nil_append]
      · rw [List.nil_append]
        refine containsL_short _ _ ?_
        have := List.length_pos.mpr hne
        simp [List.length_dropLast]
        omega
    | false =>
      rw [hb] at h
      simp only [Bool.false_eq_true, if_false, Option.map_eq_some'] at h
      rcases h with ⟨⟨b', a'⟩, hsp, hf⟩
      have hfb : b = c :: b' := by
        have hx := congrArg Prod.fst hf
        simpa using hx.symm
      have hfa : a = a' := by
        have hx := congrArg Prod.snd hf
        simpa using hx.symm
      subst hfb
      subst hfa
      rcases ih b' a hsp with ⟨hteq, hnc⟩
      subst hteq
      constructor
      · simp
      · rw [List.cons_append, containsL_cons]
        have hwin : begWith pat (c :: (b' ++ pat.dropLast)) = false := by
          have hp := List.length_pos.mpr hne
          have hL : pat.length ≤ (c :: (b' ++ pat.dropLast)).length := by
            simp [List.length_dropLast]
            omega
          have hkey : begWith pat (c :: (b' ++ (pat ++ a)))
              = begWith pat (c :: (b' ++ pat.dropLast)) := by
            have e1 : c :: (b' ++ (pat ++ a))
                = (c :: (b' ++ pat.dropLast)) ++ ([pat.getLast hne] ++ a) := by
              conv_lhs => rw [← List.dropLast_append_getLast hne]
              simp [List.append_assoc]
            rw [e1]
            exact begWith_eq_of_window pat _ _ hL
          rw [← hkey]
          exact hb
        simp [hwin, hnc]

/-! ### README splice theorems (C3, C4, C5) -/

/-- C4: when the target file lacks the start marker or lacks the end marker,
the run exits with status 1 and the target file is not modified — the final
content equals the original content and nothing is written. -/
theorem c4_missing_markers (readme newBlock : List Char)
    (h : containsL readme BLOCK_START = false ∨ containsL readme BLOCK_END = false) :
    runSplice readme newBlock
      = { exitCode := 1, finalContent := readme, wrote := false } := by
  unfold runSplice
  rcases h with h | h <;> simp [h]

/-- Witness for `c4_missing_markers` on a file containing neither marker. -/
theorem c4_missing_markers_witness :
    (containsL "No markers anywhere.".data BLOCK_START = false
      ∨ containsL "No markers anywhere.".data BLOCK_END = false)
  ∧ runSplice "No markers anywhere.".data "B".data
      = { exitCode := 1, finalContent := "No markers anywhere.".data, wrote := false } :=
  ⟨Or.inl (by decide),
   c4_missing_markers "No markers anywhere.".data "B".data (Or.inl (by decide))⟩

lemma runSplice_eq (f B pre tail mid2 rest2 : List Char)
    (hsp1 : splitFirst BLOCK_START f = some (pre, tail))
    (hc2 : containsL f BLOCK_END = true)
    (hp2 : pyPartition tail BLOCK_END = (mid2, rest2)) :
    runSplice f B =
      if pre ++ (BLOCK_START ++ (newlineL ++ (B ++ (BLOCK_END ++ rest2)))) ≠ f
      then { exitCode := 0,
             finalContent := pre ++ (BLOCK_START ++ (newlineL ++ (B ++ (BLOCK_END ++ rest2)))),
             wrote := true }
      else { exitCode := 0, finalContent := f, wrote := false } := by
  have h1 : containsL f BLOCK_START = true := by
    unfold containsL
    rw [hsp1]
    rfl
  have hp1 : pyPartition f BLOCK_START = (pre, tail) := by
    unfold pyPartition
    rw [hsp1]
  unfold runSplice
  rw [h1, hc2]
  simp only [Bool.not_true, Bool.or_self, Bool.false_eq_true, if_false]
  rw [hp1]
  dsimp only
  rw [hp2]
  dsimp only
  simp only [List.append_assoc]

lemma runSplice_decomp (f B pre tail : List Char)
    (h2 : containsL f BLOCK_END = true)
    (hsp1 : splitFirst BLOCK_START f = some (pre, tail)) :
    (runSplice f B).exitCode = 0
  ∧ (runSplice f B).finalContent
      = pre ++ (BLOCK_START ++ (newlineL ++ (B ++
          (BLOCK_END ++ (pyPartition tail BLOCK_END).2)))) := by
  rw [runSplice_eq f B pre tail (pyPartition tail BLOCK_END).1
    (pyPartition tail BLOCK_END).2 hsp1 h2 rfl]
  split_ifs with h
  · exact ⟨rfl, rfl⟩
  · exact ⟨rfl, (not_ne_iff.mp h).symm⟩

lemma runSplice_noop (f B pre tail : List Char)
    (h2 : containsL f BLOCK_END = true)
    (hsp1 : splitFirst BLOCK_START f = some (pre, tail))
    (heq : pre ++ (BLOCK_START ++ (newlineL ++ (B ++
        (BLOCK_END ++ (pyPartition tail BLOCK_END).2)))) = f) :
    runSplice f B = { exitCode := 0, finalContent := f, wrote := false } := by
  rw [runSplice_eq f B pre tail (pyPartition tail BLOCK_END).1
    (pyPartition tail BLOCK_END).2 hsp1 h2 rfl]
  rw [if_neg (by simp [heq])]

/-- C3 (counterexample): a file in which the end marker occurs only before
the first start marker contains both markers, yet the run completes with
exit code 0 and the bytes after the end marker are destroyed — they are not
a suffix of the output. -/
theorem c3_splice_frame_cex :
    containsL demoBadOrderFile BLOCK_START = true
  ∧ containsL demoBadOrderFile BLOCK_END = true
  ∧ (pyPartition demoBadOrderFile BLOCK_END).2 = BLOCK_START ++ "tail".data
  ∧ (runSplice demoBadOrderFile "XYZ".data).exitCode = 0
  ∧ (BLOCK_START ++ "tail".data).isSuffixOf
      (runSplice demoBadOrderFile "XYZ".data).finalContent = false := by
  decide

/-- C3 (amended): whenever the end marker occurs after the first occurrence
of the start marker — the file splits as `pre ++ start ++ mid ++ end ++ post`
with the first start marker at the end of `pre` and the first subsequent end
marker at the end of `mid` — the splice replaces only `mid`: the run exits 0
and the output is exactly `pre`, the start marker, a newline, the generated
block, the end marker, and `post`, so every byte before the first start
marker and after the end marker is unchanged and both markers survive. -/
theorem c3_splice_frame (pre mid post B : List Char)
    (hpre : containsL (pre ++ BLOCK_START.dropLast) BLOCK_START = false)
    (hmid : containsL (mid ++ BLOCK_END.dropLast) BLOCK_END = false) :
    (runSplice (pre ++ (BLOCK_START ++ (mid ++ (BLOCK_END ++ post)))) B).exitCode = 0
  ∧ (runSplice (pre ++ (BLOCK_START ++ (mid ++ (BLOCK_END ++ post)))) B).finalContent
      = pre ++ (BLOCK_START ++ (newlineL ++ (B ++ (BLOCK_END ++ post)))) := by
  have hS : BLOCK_START ≠ [] := by decide
  have hE : BLOCK_END ≠ [] := by decide
  have hc2 : containsL (pre ++ (BLOCK_START ++ (mid ++ (BLOCK_END ++ post))))
      BLOCK_END = true := by
    have e : pre ++ (BLOCK_START ++ (mid ++ (BLOCK_END ++ post)))
        = (pre ++ BLOCK_START ++ mid) ++ (BLOCK_END ++ post) := by
      simp [List.append_assoc]
    rw [e]
    exact containsL_append_pat _ BLOCK_END post
  have hsp1 : splitFirst BLOCK_START (pre ++ (BLOCK_START ++ (mid ++ (BLOCK_END ++ post))))
      = some (pre, mid ++ (BLOCK_END ++ post)) :=
    splitFirst_of_first BLOCK_START pre (mid ++ (BLOCK_END ++ post)) hS hpre
  have hd := runSplice_decomp (pre ++ (BLOCK_START ++ (mid ++ (BLOCK_END ++ post))))
    B pre (mid ++ (BLOCK_END ++ post)) hc2 hsp1
  have hp2 : pyPartition (mid ++ (BLOCK_END ++ post)) BLOCK_END = (mid, post) := by
    unfold pyPartition
    rw [splitFirst_of_first BLOCK_END mid post hE hmid]
  refine ⟨hd.1, ?_⟩
  rw [hd.2, hp2]

/-- Witness for `c3_splice_frame` on a concrete well-formed file. -/
theorem c3_splice_frame_witness :
    containsL ("# Heading\n".data ++ BLOCK_START.dropLast) BLOCK_START = false
  ∧ containsL ("old".data ++ BLOCK_END.dropLast) BLOCK_END = false
  ∧ ((runSplice ("# Heading\n".data ++ (BLOCK_START ++ ("old".data
        ++ (BLOCK_END ++ "\nfooter".data)))) "NEW".data).exitCode = 0
    ∧ (runSplice ("# Heading\n".data ++ (BLOCK_START ++ ("old".data
        ++ (BLOCK_END ++ "\nfooter".data)))) "NEW".data).finalContent
      = "# Heading\n".data ++ (BLOCK_START ++ (newlineL ++ ("NEW".data
          ++ (BLOCK_END ++ "\nfooter".data))))) :=
  ⟨by decide, by decide,
   c3_splice_frame "# Heading\n".data "old".data "\nfooter".data "NEW".data
     (by decide) (by decide)⟩

/-- C5 (counterexample): with a generated block that itself contains the end
marker, splicing twice does not equal splicing once — the second run changes
the file again and performs a write. -/
theorem c5_splice_idem_cex :
    ((runSplice (runSplice demoGoodFile demoEndInBlock).finalContent
        demoEndInBlock).finalContent
      = (runSplice demoGoodFile demoEndInBlock).finalContent) = False
  ∧ (runSplice (runSplice demoGoodFile demoEndInBlock).finalContent
      demoEndInBlock).wrote = true := by
  constructor
  · simp only [eq_iff_iff, iff_false]
    decide
  · decide

/-- C5 (amended): for a target file containing both markers and a generated
block that does not introduce an end-marker occurrence before the spliced one
(no occurrence of the end marker inside newline-plus-block, the inserted
text), the splice is idempotent: running it again on its own output exits 0,
leaves the content byte-for-byte identical, and performs no write. -/
theorem c5_splice_idempotent (f B : List Char)
    (h1 : containsL f BLOCK_START = true)
    (h2 : containsL f BLOCK_END = true)
    (hB : containsL (newlineL ++ (B ++ BLOCK_END.dropLast)) BLOCK_END = false) :
    runSplice (runSplice f B).finalContent B
      = { exitCode := 0, finalContent := (runSplice f B).finalContent,
          wrote := false } := by
  have hS : BLOCK_START ≠ [] := by decide
  have hE : BLOCK_END ≠ [] := by decide
  have h1' : (splitFirst BLOCK_START f).isSome = true := h1
  obtain ⟨⟨pre, tail⟩, hsp1⟩ := Option.isSome_iff_exists.mp h1'
  have hsound := splitFirst_sound BLOCK_START hS f pre tail hsp1
  have hrun1 := runSplice_decomp f B pre tail h2 hsp1
  rw [hrun1.2]
  set q := (pyPartition tail BLOCK_END).2 with hq
  have hsp1' : splitFirst BLOCK_START
      (pre ++ (BLOCK_START ++ (newlineL ++ (B ++ (BLOCK_END ++ q)))))
      = some (pre, newlineL ++ (B ++ (BLOCK_END ++ q))) :=
    splitFirst_of_first BLOCK_START pre _ hS hsound.2
  have hc2' : containsL (pre ++ (BLOCK_START ++ (newlineL ++ (B ++ (BLOCK_END ++ q)))))
      BLOCK_END = true := by
    have e : pre ++ (BLOCK_START ++ (newlineL ++ (B ++ (BLOCK_END ++ q))))
        = (pre ++ BLOCK_START ++ newlineL ++ B) ++ (BLOCK_END ++ q) := by
      simp [List.append_assoc]
    rw [e]
    exact containsL_append_pat _ BLOCK_END _
  have hp2' : pyPartition (newlineL ++ (B ++ (BLOCK_END ++ q))) BLOCK_END
      = (newlineL ++ B, q) := by
    unfold pyPartition
    have e : newlineL ++ (B ++ (BLOCK_END ++ q)) = (newlineL ++ B) ++ (BLOCK_END ++ q) := by
      simp [List.append_assoc]
    rw [e, splitFirst_of_first BLOCK_END (newlineL ++ B) q hE (by
      simpa [List.append_assoc] using hB)]
  refine runSplice_noop _ B pre (newlineL ++ (B ++ (BLOCK_END ++ q))) hc2' hsp1' ?_
  rw [hp2']

/-- Witness for `c5_splice_idempotent` on a well-formed file and a block not
containing the end marker. -/
theorem c5_splice_idempotent_witness :
    containsL demoGoodFile BLOCK_START = true
  ∧ containsL demoGoodFile BLOCK_END = true
  ∧ containsL (newlineL ++ ("fresh".data ++ BLOCK_END.dropLast)) BLOCK_END = false
  ∧ runSplice (runSplice demoGoodFile "fresh".data).finalContent "fresh".data
      = { exitCode := 0,
          finalContent := (runSplice demoGoodFile "fresh".data).finalContent,
          wrote := false } :=
  ⟨by decide, by decide, by decide,
   c5_splice_idempotent demoGoodFile "fresh".data (by decide) (by decide) (by decide)⟩

/-! ### Recent-activity table lemmas (C6) -/

lemma pyStrLeB_cons_iff (a b : Char) (xs ys : List Char) :
    pyStrLeB (a :: xs) (b :: ys) = true ↔ (a < b ∨ (a = b ∧ pyStrLeB xs ys = true)) := by
  simp only [pyStrLeB]
  split_ifs with h1 h2
  · simp [h1]
  · constructor
    · intro hF
      exact absurd hF (by simp)
    · rintro (h | ⟨rfl, _⟩)
      · exact absurd h h1
      · exact absurd h2 (lt_irrefl _)
  · have hab : a = b := le_antisymm (not_lt.mp h2) (not_lt.mp h1)
    simp [hab]

lemma pyStrLeB_total (x : List Char) : ∀ y, pyStrLeB x y = true ∨ pyStrLeB y x = true := by
  induction x with
  | nil => intro y; left; rfl
  | cons a xs ih =>
    intro y
    cases y with
    | nil => right; rfl
    | cons b ys =>
      rw [pyStrLeB_cons_iff, pyStrLeB_cons_iff]
      rcases lt_trichotomy a b with h | h | h
      · exact Or.inl (Or.inl h)
      · rcases ih ys with h2 | h2
        · exact Or.inl (Or.inr ⟨h, h2⟩)
        · exact Or.inr (Or.inr ⟨h.symm, h2⟩)
      · exact Or.inr (Or.inl h)

lemma pyStrLeB_trans (x : List Char) : ∀ y z, pyStrLeB x y = true →
    pyStrLeB y z = true → pyStrLeB x z = true := by
  induction x with
  | nil => intro y z _ _; rfl
  | cons a xs ih =>
    intro y z h1 h2
    cases y with
    | nil => simp [pyStrLeB] at h1
    | cons b ys =>
      cases z with
      | nil => simp [pyStrLeB] at h2
      | cons c zs =>
        rw [pyStrLeB_cons_iff] at h1 h2 ⊢
        rcases h1 with hab | ⟨rfl, hr1⟩
        · rcases h2 with hbc | ⟨rfl, hr2⟩
          · exact Or.inl (lt_trans hab hbc)
          · exact Or.inl hab
        · rcases h2 with hbc | ⟨rfl, hr2⟩
          · exact Or.inl hbc
          · exact Or.inr ⟨rfl, ih ys zs hr1 hr2⟩

lemma sortRepos_rel_total :
    IsTotal Repo (fun a b => pyStrLeB (sortKey b) (sortKey a) = true) :=
  ⟨fun a b => (pyStrLeB_total (sortKey b) (sortKey a)).imp id id⟩

lemma sortRepos_rel_trans :
    IsTrans Repo (fun a b => pyStrLeB (sortKey b) (sortKey a) = true) :=
  ⟨fun _ _ _ h1 h2 => pyStrLeB_trans _ _ _ h2 h1⟩

set_option maxRecDepth 16384 in
/-- C6: the recent-activity sort is a permutation of the input ordered by
push-timestamp key descending (null timestamps carry the minimal key `""`
and therefore sort last); on the concrete repositories with push timestamps
2024-01-01, null and 2024-03-01 and limit 2, the table lists the 2024-03-01
repository then the 2024-01-01 one, renders only the first 10 characters of
the timestamp, and renders a dash for a null timestamp or language (shown
with limit 3, where the null-timestamp repository appears last). -/
theorem c6_recent_repos_table :
    (∀ repos : List Repo, List.Perm (sortReposByPushed repos) repos
      ∧ (sortReposByPushed repos).Pairwise
          (fun a b => pyStrLeB (sortKey b) (sortKey a) = true))
  ∧ sortReposByPushed [demoRepoA, demoRepoB, demoRepoC]
      = [demoRepoC, demoRepoA, demoRepoB]
  ∧ make_recent_repos_table (sortReposByPushed [demoRepoA, demoRepoB, demoRepoC]) 2
      = "### 📦 最近動いたリポジトリ\n"
        ++ "| Repo | Pushed | Stars | Lang |\n"
        ++ "|------|--------|-------|------|\n"
        ++ "| [gamma](https://example.invalid/gamma) | 2024-03-01 | ⭐ 5 | C |\n"
        ++ "| [alpha](https://example.invalid/alpha) | 2024-01-01 | ⭐ 1 | Python |\n"
        ++ "\n"
  ∧ make_recent_repos_table (sortReposByPushed [demoRepoA, demoRepoB, demoRepoC]) 3
      = "### 📦 最近動いたリポジトリ\n"
        ++ "| Repo | Pushed | Stars | Lang |\n"
        ++ "|------|--------|-------|------|\n"
        ++ "| [gamma](https://example.invalid/gamma) | 2024-03-01 | ⭐ 5 | C |\n"
        ++ "| [alpha](https://example.invalid/alpha) | 2024-01-01 | ⭐ 1 | Python |\n"
        ++ "| [beta](https://example.invalid/beta) | - | ⭐ 2 | - |\n"
        ++ "\n" := by
  refine ⟨fun repos => ⟨List.perm_insertionSort _ repos, ?_⟩, by decide, by decide, by decide⟩
  haveI := sortRepos_rel_total
  haveI := sortRepos_rel_trans
  exact List.sorted_insertionSort _ repos

/-! ### Chart renderer lemmas (C7, C9) -/

lemma mostCommonRel_total : IsTotal (String × Nat) (fun p q => q.2 ≤ p.2) :=
  ⟨fun a b => le_total b.2 a.2⟩

lemma mostCommonRel_trans : IsTrans (String × Nat) (fun p q => q.2 ≤ p.2) :=
  ⟨fun _ _ _ h1 h2 => le_trans h2 h1⟩

lemma sum_map_mulQ (l : List Nat) (c : ℚ) :
    (l.map (fun s : Nat => (s : ℚ) * c)).sum = ((l.sum : Nat) : ℚ) * c := by
  induction l with
  | nil => simp
  | cons x t ih =>
    simp only [List.map_cons, List.sum_cons, ih]
    push_cast
    ring

lemma svgSliceSizes_sum_pos (c : List (String × Nat)) (hpos : ∃ p ∈ c, 0 < p.2) :
    0 < (svgSliceSizes c).sum := by
  obtain ⟨p, hp, hv⟩ := hpos
  have hmem : p ∈ List.insertionSort (fun p q : String × Nat => q.2 ≤ p.2) c :=
    (List.mem_insertionSort _).mpr hp
  cases hs : List.insertionSort (fun p q : String × Nat => q.2 ≤ p.2) c with
  | nil => rw [hs] at hmem; cases hmem
  | cons q t =>
    haveI := mostCommonRel_total
    haveI := mostCommonRel_trans
    have hsorted := List.sorted_insertionSort (fun p q : String × Nat => q.2 ≤ p.2) c
    rw [hs] at hsorted hmem
    have hq : 0 < q.2 := by
      rcases List.mem_cons.mp hmem with rfl | hmem2
      · exact hv
      · have hle := (List.sorted_cons.mp hsorted).1 p hmem2
        omega
    unfold svgSliceSizes svgSlices most_common
    rw [hs, List.take_succ_cons]
    simp only [List.map_cons, List.sum_cons]
    omega

/-- C7 (counterexample): on the non-empty tally with a single zero-byte
language the percentages do not sum to 100 — in the script the computation
`sizes[i] / total` raises `ZeroDivisionError` because the selected total is
zero, and in the embedding (where division by zero yields zero) the label
percentages sum to 0. -/
theorem c7_chart_percentages_cex :
    (svgPercents [("X", 0)]).sum ≠ 100
  ∧ save_language_svg [("X", 0)] = .error "ZeroDivisionError: sizes[i] / total" := by
  constructor
  · norm_num [svgPercents, svgSliceSizes, svgSlices, most_common]
  · rfl

/-- C7 (amended): for every non-empty tally containing at least one positive
byte count, the renderer draws the chart whose slices are the top 8 entries
by byte count descending, and labels them with percentages taken over the sum
of the selected top-8 byte counts (not the grand total), so the labelled
percentages sum to exactly 100. -/
theorem c7_chart_percentages (c : List (String × Nat)) (hne : c ≠ [])
    (hpos : ∃ p ∈ c, 0 < p.2) :
    save_language_svg c
        = .ok (.chart ((svgSlices c).map Prod.fst) (svgPercents c))
  ∧ (svgPercents c).sum = 100
  ∧ svgSlices c
      = (List.insertionSort (fun p q : String × Nat => q.2 ≤ p.2) c).take 8 := by
  have htot := svgSliceSizes_sum_pos c hpos
  have hQ : ((svgSliceSizes c).sum : ℚ) ≠ 0 := by
    have hnz : (svgSliceSizes c).sum ≠ 0 := by omega
    exact_mod_cast hnz
  refine ⟨?_, ?_, rfl⟩
  · unfold save_language_svg
    rw [if_neg (by simpa [List.isEmpty_iff] using hne), if_neg (by omega)]
  · unfold svgPercents
    have hrw : (svgSliceSizes c).map
        (fun s : Nat => (s : ℚ) / ((svgSliceSizes c).sum : ℚ) * 100)
        = (svgSliceSizes c).map
          (fun s : Nat => (s : ℚ) * (100 / ((svgSliceSizes c).sum : ℚ))) := by
      refine List.map_congr_left ?_
      intro s _
      field_simp
    rw [hrw, sum_map_mulQ, ← mul_div_assoc,
      mul_comm (((svgSliceSizes c).sum : Nat) : ℚ) (100 : ℚ), mul_div_assoc,
      div_self hQ, mul_one]

/-- Witness for `c7_chart_percentages` on a concrete two-language tally. -/
theorem c7_chart_percentages_witness :
    ([("Python", 3), ("C", 1)] : List (String × Nat)) ≠ []
  ∧ (∃ p ∈ ([("Python", 3), ("C", 1)] : List (String × Nat)), 0 < p.2)
  ∧ (save_language_svg [("Python", 3), ("C", 1)]
        = .ok (.chart ((svgSlices [("Python", 3), ("C", 1)]).map Prod.fst)
            (svgPercents [("Python", 3), ("C", 1)]))
    ∧ (svgPercents [("Python", 3), ("C", 1)]).sum = 100
    ∧ svgSlices [("Python", 3), ("C", 1)]
        = (List.insertionSort (fun p q : String × Nat => q.2 ≤ p.2)
            [("Python", 3), ("C", 1)]).take 8) :=
  ⟨by decide, by decide,
   c7_chart_percentages [("Python", 3), ("C", 1)] (by decide) (by decide)⟩

/-- C9 (counterexample): the renderer does not complete without error on
every tally — a non-empty tally whose byte counts are all zero reaches the
slice-percentage division with a zero total and raises `ZeroDivisionError`. -/
theorem c9_renderer_cex :
    save_language_svg [("A", 0), ("B", 0)]
      = .error "ZeroDivisionError: sizes[i] / total" := rfl

/-- C9 (amended): the renderer completes without error on every tally that is
empty or contains a positive byte count; the empty tally still yields an
output — the placeholder figure with its explanatory text — instead of a pie
chart, and a tally with a positive count yields the chart. -/
theorem c9_renderer_safety (c : List (String × Nat)) :
    save_language_svg [] = .ok (.placeholder "No language data")
  ∧ ((∃ p ∈ c, 0 < p.2) →
      save_language_svg c
        = .ok (.chart ((svgSlices c).map Prod.fst) (svgPercents c))) := by
  refine ⟨rfl, fun hpos => ?_⟩
  have htot := svgSliceSizes_sum_pos c hpos
  have hne : c ≠ [] := by
    rintro rfl
    rcases hpos with ⟨p, hp, _⟩
    cases hp
  unfold save_language_svg
  rw [if_neg (by simpa [List.isEmpty_iff] using hne), if_neg (by omega)]

/-- Witness for `c9_renderer_safety` on a concrete one-language tally. -/
theorem c9_renderer_safety_witness :
    save_language_svg [] = .ok (.placeholder "No language data")
  ∧ ((∃ p ∈ ([("Go", 7)] : List (String × Nat)), 0 < p.2) →
      save_language_svg [("Go", 7)]
        = .ok (.chart ((svgSlices [("Go", 7)]).map Prod.fst)
            (svgPercents [("Go", 7)]))) :=
  c9_renderer_safety [("Go", 7)]

/-! ### Contributor ranking lemmas (C8) -/

lemma keysOf_counterAdd_eq (c : List (String × Nat)) (k : String) (v : Nat) :
    keysOf (counterAdd c k v)
      = if k ∈ keysOf c then keysOf c else keysOf c ++ [k] := by
  induction c with
  | nil => simp [counterAdd, keysOf]
  | cons p t ih =>
    by_cases h : p.1 = k
    · have e1 : counterAdd (p :: t) k v = (p.1, p.2 + v) :: t := by
        simp only [counterAdd, if_pos h]
      rw [e1]
      have hk : k ∈ keysOf (p :: t) := by
        simp only [keysOf, List.map_cons, List.mem_cons]
        exact Or.inl h.symm
      rw [if_pos hk]
      simp [keysOf]
    · have e1 : counterAdd (p :: t) k v = p :: counterAdd t k v := by
        simp only [counterAdd, if_neg h]
      rw [e1]
      have e2 : keysOf (p :: counterAdd t k v) = p.1 :: keysOf (counterAdd t k v) := rfl
      have e3 : keysOf (p :: t) = p.1 :: keysOf t := rfl
      rw [e2, e3, ih]
      by_cases h2 : k ∈ keysOf t
      · rw [if_pos h2, if_pos (List.mem_cons.mpr (Or.inr h2))]
      · have hn : ¬ k ∈ p.1 :: keysOf t := by
          intro hc
          rcases List.mem_cons.mp hc with hc | hc
          · exact h hc.symm
          · exact h2 hc
        rw [if_neg h2, if_neg hn]
        simp

lemma keysOf_counterAdd_nodup (c : List (String × Nat)) (k : String) (v : Nat)
    (h : (keysOf c).Nodup) : (keysOf (counterAdd c k v)).Nodup := by
  rw [keysOf_counterAdd_eq]
  split_ifs with h2
  · exact h
  · rw [List.nodup_append]
    exact ⟨h, List.nodup_singleton k, by simpa using h2⟩

lemma keysOf_contribStep_nodup (t : List (String × Nat)) (c : Contributor)
    (h : (keysOf t).Nodup) : (keysOf (contribStep t c)).Nodup := by
  obtain ⟨login, cnt⟩ := c
  cases login with
  | none => exact h
  | some l =>
    simp only [contribStep]
    split_ifs with h2
    · exact h
    · exact keysOf_counterAdd_nodup t l cnt h

lemma keysOf_contribFold_nodup (cs : List Contributor) (t : List (String × Nat))
    (h : (keysOf t).Nodup) : (keysOf (cs.foldl contribStep t)).Nodup := by
  induction cs generalizing t with
  | nil => exact h
  | cons c cs ih => exact ih _ (keysOf_contribStep_nodup t c h)

lemma keysOf_contributorCounter_nodup (fetch : String → List Contributor)
    (repos : List Repo) : (keysOf (contributorCounter fetch repos)).Nodup := by
  suffices haux : ∀ t : List (String × Nat), (keysOf t).Nodup →
      (keysOf (repos.foldl (fun total r => (fetch r.name).foldl contribStep total) t)).Nodup by
    exact haux [] (by simp [keysOf])
  induction repos with
  | nil => exact fun t ht => ht
  | cons r rs ih => exact fun t ht => ih _ (keysOf_contribFold_nodup (fetch r.name) t ht)

lemma countOf_eq_zero_of_not_mem (c : List (String × Nat)) (k : String)
    (h : k ∉ keysOf c) : countOf c k = 0 := by
  induction c with
  | nil => rfl
  | cons p t ih =>
    have h0 : ¬ (k = p.1 ∨ k ∈ keysOf t) := by
      intro hc
      exact h (List.mem_cons.mpr hc)
    obtain ⟨h1, h2⟩ := not_or.mp h0
    have h1' : ¬ p.1 = k := fun e => h1 e.symm
    simp only [countOf, if_neg h1']
    simp [ih h2]

lemma countOf_eq_of_mem (c : List (String × Nat)) (p : String × Nat)
    (hnd : (keysOf c).Nodup) (hp : p ∈ c) : countOf c p.1 = p.2 := by
  induction c with
  | nil => cases hp
  | cons q t ih =>
    have hnd1 : (q.1 :: keysOf t).Nodup := hnd
    have hq1 := (List.nodup_cons.mp hnd1).1
    have hq2 := (List.nodup_cons.mp hnd1).2
    rcases List.mem_cons.mp hp with rfl | hp2
    · simp [countOf, countOf_eq_zero_of_not_mem t _ hq1]
    · have hne : q.1 ≠ p.1 := by
        intro e
        exact hq1 (e ▸ List.mem_map_of_mem Prod.fst hp2)
      simp only [countOf, if_neg hne]
      simp [ih hq2 hp2]

set_option maxRecDepth 16384 in
/-- C8 (counterexample): with eleven distinct logins in the tally (one
contribution each), the contributor table is not the full ranking list: the
ranking is capped at 10 by `most_common(top_n=10)`, so the table has 10 rows
and the eleventh login never appears in the rendered section. -/
theorem c8_contributors_cex :
    "c11" ∈ keysOf (contributorCounter demoContribFetch11 [demoRepoA])
  ∧ (keysOf (contributorCounter demoContribFetch11 [demoRepoA])).length = 11
  ∧ (aggregate_contributors demoContribFetch11 [demoRepoA] 10).length = 10
  ∧ containsL (make_contributors_section
        (aggregate_contributors demoContribFetch11 [demoRepoA] 10)).data
      "@c11".data = false := by
  refine ⟨by decide, by decide, by decide, by decide⟩

set_option maxRecDepth 16384 in
/-- C8 (amended): the contributor table renders the top 10 entries of the
tally — `most_common(10)` — ordered by summed contribution count descending
(a stable sort, so ties keep first-encountered order, demonstrated on the
concrete tie between `alice` and `bob`); each rendered entry is a genuine
tally entry carrying its exact summed count, and the section degenerates to
the "no data" placeholder line exactly when the tally is empty. -/
theorem c8_contributors_section (fetch : String → List Contributor)
    (repos : List Repo) :
    (aggregate_contributors fetch repos 10).length ≤ 10
  ∧ (aggregate_contributors fetch repos 10).Pairwise (fun p q => q.2 ≤ p.2)
  ∧ (∀ p ∈ aggregate_contributors fetch repos 10,
        p ∈ contributorCounter fetch repos
          ∧ countOf (contributorCounter fetch repos) p.1 = p.2)
  ∧ (make_contributors_section (aggregate_contributors fetch repos 10)
      = if contributorCounter fetch repos = []
        then String.join ["### 🧑‍💻 Top Contributors (all repos)\n",
            "データがありませんでした。\n\n"]
        else String.join
          (["### 🧑‍💻 Top Contributors (all repos)\n",
            "| User | Contributions |\n", "|------|----------------|\n"]
            ++ (aggregate_contributors fetch repos 10).map
                (fun p => "| @" ++ p.1 ++ " | " ++ toString p.2 ++ " |\n")
            ++ ["\n"]))
  ∧ aggregate_contributors demoContribFetchTie [demoRepoA] 10
      = [("alice", 5), ("bob", 5)] := by
  haveI := mostCommonRel_total
  haveI := mostCommonRel_trans
  refine ⟨?_, ?_, ?_, ?_, by decide⟩
  · simp only [aggregate_contributors, most_common]
    exact List.length_take_le _ _
  · simp only [aggregate_contributors, most_common]
    exact (List.sorted_insertionSort _ _).sublist (List.take_sublist _ _)
  · intro p hp
    simp only [aggregate_contributors, most_common] at hp
    have hp2 : p ∈ List.insertionSort (fun p q : String × Nat => q.2 ≤ p.2)
        (contributorCounter fetch repos) := List.mem_of_mem_take hp
    have hp3 : p ∈ contributorCounter fetch repos :=
      (List.mem_insertionSort _).mp hp2
    exact ⟨hp3, countOf_eq_of_mem _ p (keysOf_contributorCounter_nodup fetch repos) hp3⟩
  · by_cases hc : contributorCounter fetch repos = []
    · rw [if_pos hc]
      have hagg : aggregate_contributors fetch repos 10 = [] := by
        simp [aggregate_contributors, hc, most_common]
      rw [hagg]
      rfl
    · rw [if_neg hc]
      have hlen : (aggregate_contributors fetch repos 10).length
          = min 10 (contributorCounter fetch repos).length := by
        simp [aggregate_contributors, most_common, List.length_take,
          List.length_insertionSort]
      have hagg : aggregate_contributors fetch repos 10 ≠ [] := by
        intro e
        have h0 : (contributorCounter fetch repos).length ≠ 0 :=
          fun hz => hc (List.length_eq_zero.mp hz)
        rw [e] at hlen
        simp at hlen
        omega
      unfold make_contributors_section
      rw [if_neg (by simpa [List.isEmpty_iff] using hagg)]
      simp
